import Mathlib

/-!
Shallow embedding of `merge.py` from the myEPG repository: an EPG
(electronic programme guide) aggregation pipeline.  Python `dict`s are
modelled as insertion-ordered association lists, `xml.etree.ElementTree`
elements as a small tree structure, the OpenCC script converter and
`ET.fromstring` as function parameters (they are external libraries the
pipeline treats as black boxes), and the md5 content fingerprint as an
injective fingerprint of the text.
-/

/-- Ordered association list standing for a Python `dict`
(insertion-ordered); `dictGet` returns the value at the first matching
key, `none` when the key is absent (`k in d` is `(dictGet d k).isSome`). -/
def dictGet {α : Type} (d : List (String × α)) (k : String) : Option α :=
  match d with
  | [] => none
  | e :: rest => if e.1 = k then some e.2 else dictGet rest k

/-- Python `d[k] = v`: replace the value at the first occurrence of `k`,
keeping its position, or append a new entry at the end (CPython dict
assignment semantics). -/
def dictSet {α : Type} (d : List (String × α)) (k : String) (v : α) :
    List (String × α) :=
  match d with
  | [] => [(k, v)]
  | e :: rest => if e.1 = k then (k, v) :: rest else e :: dictSet rest k v

/-- One parsed markup element in the shape `xml.etree.ElementTree`
exposes: tag, attribute dict, optional text, list of children.  Note
`ET` parsing yields `text = none` for an element with no text, never
`some ""`. -/
structure Elem where
  tag : String
  attrs : List (String × String)
  text : Option String
  children : List Elem
  deriving Repr

/-- `elem.get(name)`: attribute lookup. -/
def Elem.get (e : Elem) (name : String) : Option String :=
  dictGet e.attrs name

/-- `elem.findall(tag)`: all direct children with the given tag, in
document order. -/
def Elem.findall (e : Elem) (t : String) : List Elem :=
  e.children.filter (fun c => c.tag == t)

/-- `elem.find(tag)`: the first direct child with the given tag. -/
def Elem.find (e : Elem) (t : String) : Option Elem :=
  e.children.find? (fun c => c.tag == t)

/-- `elem.set(name, value)`: attribute assignment. -/
def Elem.setAttr (e : Elem) (name v : String) : Elem :=
  { e with attrs := dictSet e.attrs name v }

/-- `transform2_zh_hans` (merge.py lines 19-30) with the OpenCC
converter abstracted as `cc` (the spec treats script conversion as an
injected black-box text-to-text function): `None` passes through,
a string is converted. -/
def transform2_zh_hans (cc : String → String) : Option String → Option String
  | none => none
  | some s => some (cc s)

/-- `get_content_hash` (merge.py lines 32-34): the md5 hex digest of the
UTF-8 bytes, modelled as an injective fingerprint of the content (the
content itself); all the cache logic relies on is that identical bytes
produce an identical key. -/
def get_content_hash (s : String) : String := s

/-- A parsed aware timestamp: the wall-clock fields plus the parsed UTC
offset (sign, hours, minutes, seconds, microseconds), as
`datetime.strptime` with `%z` produces. -/
structure Timestamp where
  year : Nat
  month : Nat
  day : Nat
  hour : Nat
  minute : Nat
  second : Nat
  tzNeg : Bool
  tzHour : Nat
  tzMin : Nat
  tzSec : Nat
  tzMicro : Nat
  deriving DecidableEq, Repr

def digitVal (c : Char) : Option Nat :=
  if c.isDigit then some (c.toNat - 48) else none

def num2 (a b : Char) : Option Nat := do
  pure (10 * (← digitVal a) + (← digitVal b))

def isLeap (y : Nat) : Bool :=
  (y % 4 == 0 && y % 100 != 0) || (y % 400 == 0)

def daysInMonth (y m : Nat) : Nat :=
  if m = 2 then (if isLeap y then 29 else 28)
  else if m = 4 ∨ m = 6 ∨ m = 9 ∨ m = 11 then 30
  else 31

/-- The characters Python treats as whitespace in text: what
`str.strip()`, `str.isspace()` and the `re` class `\s` match on `str`
input — ASCII whitespace including form feed and vertical tab, the C0
separator controls, next line, and the Unicode space characters.
(Digits are modelled as ASCII digits throughout; the document grammar
contains no other digits.) -/
def pyIsSpace (c : Char) : Bool :=
  c == ' ' || c == '\t' || c == '\n' || c == '\r' ||
  c == '\x0b' || c == '\x0c' ||
  c == '\x1c' || c == '\x1d' || c == '\x1e' || c == '\x1f' ||
  c == '\x85' || c == '\xa0' || c == '\u1680' ||
  (decide ('\u2000' ≤ c) && decide (c ≤ '\u200a')) ||
  c == '\u2028' || c == '\u2029' || c == '\u202f' || c == '\u205f' ||
  c == '\u3000'

/-- The first `some` produced by `f` over the candidates of `l`, tried
in order: the backtracking search of a regex alternation. -/
def firstSome {α β : Type} (l : List α) (f : α → Option β) : Option β :=
  match l with
  | [] => none
  | a :: rest =>
    match f a with
    | some b => some b
    | none => firstSome rest f

/-- `%Y` in CPython `_strptime`: the pattern `\d\d\d\d`, exactly four
digits (one deterministic candidate). -/
def matchY : List Char → List (Nat × List Char)
  | a :: b :: c :: d :: rest =>
    match num2 a b, num2 c d with
    | some hi, some lo => [(hi * 100 + lo, rest)]
    | _, _ => []
  | _ => []

/-- The candidates, in regex alternation order, of a `_strptime` numeric
directive whose pattern is a union of two-digit alternatives followed by
a one-digit alternative (e.g. `%m` is `1[0-2]|0[1-9]|[1-9]`): the
two-digit value first when the two-digit alternatives accept it, then
the one-digit value when the one-digit alternative accepts it. -/
def numField (two one : Nat → Bool) : List Char → List (Nat × List Char)
  | [] => []
  | [a] =>
    match digitVal a with
    | some v => if one v then [(v, [])] else []
    | none => []
  | a :: b :: rest =>
    (match num2 a b with
     | some v => if two v then [(v, rest)] else []
     | none => []) ++
    (match digitVal a with
     | some v => if one v then [(v, b :: rest)] else []
     | none => [])

/-- `%m`: `1[0-2]|0[1-9]|[1-9]`. -/
def matchMonth : List Char → List (Nat × List Char) :=
  numField (fun v => decide (1 ≤ v ∧ v ≤ 12)) (fun v => decide (1 ≤ v))

/-- `%d`: `3[0-1]|[1-2]\d|0[1-9]|[1-9]| [1-9]` — the numeric
alternatives, then a single digit, then the space-padded day, in
alternation order. -/
def matchDay (l : List Char) : List (Nat × List Char) :=
  numField (fun v => decide (1 ≤ v ∧ v ≤ 31)) (fun v => decide (1 ≤ v)) l ++
  (match l with
   | ' ' :: b :: rest =>
     match digitVal b with
     | some v => if 1 ≤ v then [(v, rest)] else []
     | none => []
   | _ => [])

/-- `%H`: `2[0-3]|[0-1]\d|\d`. -/
def matchHour : List Char → List (Nat × List Char) :=
  numField (fun v => decide (v ≤ 23)) (fun _ => true)

/-- `%M`: `[0-5]\d|\d`. -/
def matchMin : List Char → List (Nat × List Char) :=
  numField (fun v => decide (v ≤ 59)) (fun _ => true)

/-- `%S`: `6[0-1]|[0-5]\d|\d` (the regex admits leap seconds; the
`datetime` constructor later rejects them). -/
def matchSec : List Char → List (Nat × List Char) :=
  numField (fun v => decide (v ≤ 61)) (fun _ => true)

/-- The `%z` capture, structured: `Z`, or sign, two offset-hour digits,
optional colon, offset minutes, and an optional seconds part (its own
optional colon, two digits, optional fraction digits). -/
inductive ZVal where
  | zulu
  | signed (neg : Bool) (hh mm : Nat) (colon1 : Bool)
      (secPart : Option (Bool × Nat × List Char))

/-- `[0-5]\d`: a two-digit group with value at most 59. -/
def matchMM2 : List Char → Option (Nat × List Char)
  | a :: b :: rest =>
    match num2 a b with
    | some v => if v ≤ 59 then some (v, rest) else none
    | none => none
  | _ => none

/-- Greedily take up to six digits: the `\d{1,6}` of the `%z` offset
fraction. -/
def takeFrac : Nat → List Char → (List Char × List Char)
  | 0, l => ([], l)
  | _ + 1, [] => ([], [])
  | n + 1, c :: rest =>
    if c.isDigit then
      let p := takeFrac n rest
      (c :: p.1, p.2)
    else ([], c :: rest)

/-- The optional seconds part `(:?[0-5]\d(\.\d{1,6})?)?` of `%z`:
greedy, so present whenever it matches, recording whether its optional
colon was taken and keeping the fraction digits for the microsecond
conversion.  A dot not followed by a digit leaves the fraction group
unmatched (and the dot unconsumed). -/
def matchSecPart (l : List Char) :
    Option ((Bool × Nat × List Char) × List Char) :=
  let core : Bool → List Char → Option ((Bool × Nat × List Char) × List Char) :=
    fun colon2 l2 =>
      match matchMM2 l2 with
      | none => none
      | some (ss, r) =>
        match r with
        | '.' :: r2 =>
          match takeFrac 6 r2 with
          | ([], _) => some ((colon2, ss, []), '.' :: r2)
          | (ds, r3) => some ((colon2, ss, ds), r3)
        | _ => some ((colon2, ss, []), r)
  match l with
  | ':' :: r => core true r
  | _ => core false l

/-- `%z`: the pattern `[+-]\d\d:?[0-5]\d(:?[0-5]\d(\.\d{1,6})?)?`
or the literal `Z` (case-sensitive: the pattern wraps it in `(?-i:Z)`).
The sign branch is tried first, as in the compiled alternation.  `%z` is
the last directive, so only the regex-preferred variant matters. -/
def matchZ : List Char → Option (ZVal × List Char)
  | [] => none
  | c :: rest =>
    if c == '+' || c == '-' then
      match rest with
      | a :: b :: rest2 =>
        match num2 a b with
        | none => none
        | some hh =>
          let cont : Bool → List Char → Option (ZVal × List Char) :=
            fun colon1 l =>
              match matchMM2 l with
              | none => none
              | some (mm, r) =>
                match matchSecPart r with
                | some (sp, r2) =>
                  some (ZVal.signed (c == '-') hh mm colon1 (some sp), r2)
                | none =>
                  some (ZVal.signed (c == '-') hh mm colon1 none, r)
          match rest2 with
          | ':' :: rest3 => cont true rest3
          | _ => cont false rest2
      | _ => none
    else if c == 'Z' then some (ZVal.zulu, rest)
    else none

/-- Right-pad the fraction digits to six places: microseconds, as
`_strptime` computes `int(gmtoff_remainder + padding)`. -/
def fracToMicro (ds : List Char) : Nat :=
  (ds.foldl (fun a c => a * 10 + (c.toNat - 48)) 0) * 10 ^ (6 - ds.length)

/-- `_strptime`'s conversion of the `%z` capture to an offset
(sign, hours, minutes, seconds, microseconds).  Mixed colon usage
raises: a colon after the hours demands a colon before the seconds
("Inconsistent use of :"), and seconds introduced by a colon when the
minutes were not fail the `int(z[5:7])` conversion. -/
def zToOffset : ZVal → Option (Bool × Nat × Nat × Nat × Nat)
  | ZVal.zulu => some (false, 0, 0, 0, 0)
  | ZVal.signed neg hh mm colon1 secPart =>
    match secPart with
    | none => some (neg, hh, mm, 0, 0)
    | some (colon2, ss, frac) =>
      if colon1 = colon2 then some (neg, hh, mm, ss, fracToMicro frac)
      else none

/-- `datetime.strptime(s, "%Y%m%d%H%M%S%z")` (merge.py lines 107-108),
modelled after CPython `_strptime` for this fixed format: the directive
patterns above are matched in sequence with full backtracking in
alternation order (so one- and two-digit month/day/hour/minute/second
fields, and `Z`, `±HH:MM`, `±HHMM`, `±HHMMSS[.ffffff]` offsets are all
accepted — a superset of the spec's `YYYYMMDDHHMMSS±HHMM` grammar); the
first complete pattern match must consume the whole string
("unconverted data remains" otherwise); then the `%z` conversion and
the `datetime`/`timezone` constructors validate: year at least 1, a
real calendar day (leap years), second at most 59 (leap seconds
rejected), and a total offset strictly below 24 hours. -/
def strptime_z (s : String) : Option Timestamp :=
  match
    firstSome (matchY s.data) (fun yr =>
    firstSome (matchMonth yr.2) (fun mor =>
    firstSome (matchDay mor.2) (fun dr =>
    firstSome (matchHour dr.2) (fun hr =>
    firstSome (matchMin hr.2) (fun mir =>
    firstSome (matchSec mir.2) (fun ser =>
      match matchZ ser.2 with
      | some (zv, rest) =>
        some (yr.1, mor.1, dr.1, hr.1, mir.1, ser.1, zv, rest)
      | none => none))))))
  with
  | none => none
  | some (y, mo, d, h, mi, se, zv, rest) =>
    if rest = [] then
      match zToOffset zv with
      | some (neg, zh, zm, zs, zu) =>
        if 1 ≤ y ∧ 1 ≤ mo ∧ mo ≤ 12 ∧ 1 ≤ d ∧ d ≤ daysInMonth y mo ∧
           h ≤ 23 ∧ mi ≤ 59 ∧ se ≤ 59 ∧
           (zh * 3600 + zm * 60 + zs) * 1000000 + zu < 86400000000 then
          some ⟨y, mo, d, h, mi, se, neg, zh, zm, zs, zu⟩
        else none
      | none => none
    else none

/-- The spec's claimed timestamp grammar (spec §6 and §4.2): exactly
`YYYYMMDDHHMMSS±HHMM`, nineteen characters, offset required, together
with the calendar and range validity "parse successfully" implies.
This is the spec-side definition C1 is stated against; the program's
parser is `strptime_z`, which accepts a strict superset. -/
def specTimestamp (s : String) : Option Timestamp :=
  match s.data with
  | [y1, y2, y3, y4, mo1, mo2, d1, d2, h1, h2, mi1, mi2, se1, se2,
     sg, oh1, oh2, om1, om2] => do
    let y := (← num2 y1 y2) * 100 + (← num2 y3 y4)
    let mo ← num2 mo1 mo2
    let d ← num2 d1 d2
    let h ← num2 h1 h2
    let mi ← num2 mi1 mi2
    let se ← num2 se1 se2
    let neg ← if sg = '+' then some false
              else if sg = '-' then some true else none
    let oh ← num2 oh1 oh2
    let om ← num2 om1 om2
    if 1 ≤ y ∧ 1 ≤ mo ∧ mo ≤ 12 ∧ 1 ≤ d ∧ d ≤ daysInMonth y mo ∧
       h ≤ 23 ∧ mi ≤ 59 ∧ se ≤ 59 ∧ om ≤ 59 ∧ oh * 60 + om < 1440 then
      some ⟨y, mo, d, h, mi, se, neg, oh, om, 0, 0⟩
    else none
  | _ => none

/-- `re.sub(r"\s+", "", s)` (merge.py lines 104-105): drop every
whitespace character (the Python whitespace class) from the string. -/
def cleanWs (s : String) : String :=
  String.mk (s.data.filter (fun c => !pyIsSpace c))

def pad2 (n : Nat) : String :=
  if n < 10 then "0" ++ toString n else toString n

def pad4 (n : Nat) : String :=
  if n < 10 then "000" ++ toString n
  else if n < 100 then "00" ++ toString n
  else if n < 1000 then "0" ++ toString n
  else toString n

/-- `t.strftime("%Y%m%d%H%M%S +0800")` (merge.py lines 122-123): the
stored wall-clock fields, zero-padded, followed by the literal string
" +0800"; the parsed UTC offset fields are not consulted and no time
conversion happens. -/
def strftime_epg (t : Timestamp) : String :=
  pad4 t.year ++ pad2 t.month ++ pad2 t.day ++ pad2 t.hour ++
    pad2 t.minute ++ pad2 t.second ++ " +0800"

/-- Python `s.strip()`: the string with leading and trailing whitespace
(the Python whitespace class) removed; used only to classify
blankness. -/
def pyStrip (s : String) : String :=
  String.mk (((s.data.dropWhile pyIsSpace).reverse.dropWhile
    pyIsSpace).reverse)

/-- Channel table: id to display name (the display name can be Python
`None` when a `display-name` child exists but has no text). -/
abbrev Channels := List (String × Option String)

/-- Programme table: channel id to the ordered list of rebuilt
`programme` elements. -/
abbrev Programmes := List (String × List Elem)

/-- The body of `parse_epg`'s programme loop (merge.py lines 92-135)
for one `programme` element: the channel key and the rebuilt element if
the element is admitted, `none` when it is skipped.  The checks appear
in source order: falsy normalized `channel` attribute; absent or empty
`start`/`stop`; `strptime` failure on either cleaned timestamp; absent
`title` child or absent title text. -/
def procProgramme (cc : String → String) (p : Elem) : Option (String × Elem) :=
  match transform2_zh_hans cc (p.get "channel") with
  | none => none
  | some cid =>
    if cid = "" then none
    else
      match p.get "start", p.get "stop" with
      | some startT, some stopT =>
        if startT = "" ∨ stopT = "" then none
        else
          match strptime_z (cleanWs startT), strptime_z (cleanWs stopT) with
          | some ts, some tp =>
            match p.find "title" with
            | some titleElem =>
              match titleElem.text with
              | some titleText =>
                let descChildren : List Elem :=
                  match p.find "desc" with
                  | some descElem =>
                    match descElem.text with
                    | some dtext => [⟨"desc", [], some (cc dtext), []⟩]
                    | none => []
                  | none => []
                some (cid,
                  ⟨"programme",
                   [("channel", cid), ("start", strftime_epg ts),
                    ("stop", strftime_epg tp)],
                   none,
                   ⟨"title", [], some (cc titleText), []⟩ :: descChildren⟩)
              | none => none
            | none => none
          | _, _ => none
      | _, _ => none

/-- `parse_epg`'s channel loop (merge.py lines 84-89): normalize the
`id`, skip falsy ids, store the normalized display-name text (the empty
string when the `display-name` child is absent, `None` when the child
exists without text). -/
def parseChannels (cc : String → String) (root : Elem) : Channels :=
  (root.findall "channel").foldl (fun chs ch =>
    match transform2_zh_hans cc (ch.get "id") with
    | none => chs
    | some cid =>
      if cid = "" then chs
      else
        dictSet chs cid
          (match ch.find "display-name" with
           | some dn => transform2_zh_hans cc dn.text
           | none => some (cc ""))) []

/-- `programmes[channel_id].extend(prog_list)` on a
`defaultdict(list)`: append to the existing list, or create the entry. -/
def dictExtend (d : Programmes) (k : String) (l : List Elem) : Programmes :=
  dictSet d k (((dictGet d k).getD []) ++ l)

/-- `parse_epg`'s programme loop (merge.py lines 92-135): fold over the
`programme` children, appending each admitted rebuilt element under its
channel id and skipping the rest. -/
def parseProgrammes (cc : String → String) (root : Elem) : Programmes :=
  (root.findall "programme").foldl (fun prs p =>
    match procProgramme cc p with
    | some ce => dictExtend prs ce.1 [ce.2]
    | none => prs) []

/-- The process-wide parser state: the content cache `epg_cache`
(merge.py line 37) plus a counter of how many times the parsing stage
proper (merge.py line 76 onward, past the cache check) has run — the
parse-count counter of spec §8. -/
structure EpgState where
  cache : List (String × (Channels × Programmes))
  parseCount : Nat

/-- `parse_epg(epg_content, use_cache)` (merge.py lines 58-142).
`xmlParse` stands for `ET.fromstring` (`none` models `ET.ParseError`),
`cc` for the OpenCC converter.  `None` or blank input returns empty
maps at once; a cache hit returns the stored pair; otherwise the
document is parsed (counter increment), a malformed document returns
empty maps without touching the cache, and a well-formed one has its
result stored under the content fingerprint when `use_cache` is on. -/
def parse_epg (cc : String → String) (xmlParse : String → Option Elem)
    (st : EpgState) (epg_content : Option String) (use_cache : Bool) :
    (Channels × Programmes) × EpgState :=
  match epg_content with
  | none => (([], []), st)
  | some content =>
    if pyStrip content = "" then (([], []), st)
    else
      let h := get_content_hash content
      match (if use_cache then dictGet st.cache h else none) with
      | some r => (r, st)
      | none =>
        let st1 : EpgState := ⟨st.cache, st.parseCount + 1⟩
        match xmlParse content with
        | none => (([], []), st1)
        | some root =>
          let r := (parseChannels cc root, parseProgrammes cc root)
          if use_cache then (r, ⟨dictSet st1.cache h r, st1.parseCount⟩)
          else (r, st1)

/-- The externally-determined outcome of the one network request
`fetch_epg` issues for a locator. -/
inductive FetchOutcome where
  | success (text : String)
  | clientError
  | badStatus
  | timedOut
  | otherError
  deriving DecidableEq, Repr

/-- `fetch_epg` (merge.py lines 39-56): the awaited text on success;
every failure class — `aiohttp.ClientError` (which includes the
non-success status raised by `raise_for_status`), `asyncio.TimeoutError`,
any other exception — is caught inside the function and yields `None`. -/
def fetch_epg : FetchOutcome → Option String
  | .success t => some t
  | _ => none

/-- `tqdm_asyncio.gather(*tasks)` over the per-locator `fetch_epg`
tasks (merge.py lines 208-212): the index-aligned list of per-locator
results. -/
def fetchAll (outcomes : List FetchOutcome) : List (Option String) :=
  outcomes.map fetch_epg

/-- One step of `main`'s merge loop (merge.py lines 226-232): a source
whose channel dict is empty (falsy `if channels:`) is skipped entirely;
otherwise its channels are `dict.update`d into the aggregate and each
of its programme lists is `extend`ed onto the aggregate's list for the
same channel id. -/
def mergeStep (acc src : Channels × Programmes) : Channels × Programmes :=
  if src.1.isEmpty then acc
  else
    (src.1.foldl (fun a e => dictSet a e.1 e.2) acc.1,
     src.2.foldl (fun a e => dictExtend a e.1 e.2) acc.2)

/-- `main`'s merge fold (merge.py lines 214-232) over the ordered
per-source parse results, starting from empty aggregate maps. -/
def mergeFold (rs : List (Channels × Programmes)) : Channels × Programmes :=
  rs.foldl mergeStep ([], [])

/-- `write_to_xml` (merge.py lines 144-162) up to serialization: the
built `tv` element tree (directory creation, pretty-printing and file
output are external).  Every programme element gets its `channel`
attribute re-set to the key it is filed under (line 161). -/
def write_to_xml (channels : Channels) (programmes : Programmes)
    (now : String) : Elem :=
  ⟨"tv", [("date", now)], none,
    channels.map (fun kv =>
      ⟨"channel", [("id", kv.1)], none,
       [⟨"display-name", [("lang", "zh")], kv.2, []⟩]⟩)
    ++ programmes.foldl (fun acc kv =>
         acc ++ kv.2.map (fun p => p.setAttr "channel" kv.1)) []⟩

/-- Spec-side admission condition for one programme element, following
the claim's words (spec §3 invariants, §4.2, grammar of §6): non-empty
normalized channel id; present, non-empty `start` and `stop` that parse
under the claimed grammar `YYYYMMDDHHMMSS±HHMM` (`specTimestamp`) after
whitespace stripping; and a `title` child whose text is present (`ET`
renders an empty title as absent text, so presence of text is
non-emptiness). -/
def admitsProgramme (cc : String → String) (p : Elem) : Bool :=
  match (p.get "channel").map cc with
  | none => false
  | some cid =>
    cid != "" &&
    (match p.get "start", p.get "stop" with
     | some startT, some stopT =>
       startT != "" && stopT != "" &&
       (specTimestamp (cleanWs startT)).isSome &&
       (specTimestamp (cleanWs stopT)).isSome &&
       (match p.find "title" with
        | some t => t.text.isSome
        | none => false)
     | _, _ => false)

/-- The program's effective admission condition for one programme
element: as `admitsProgramme`, but the timestamps parse under the
parser the code actually calls, `datetime.strptime` with
`%Y%m%d%H%M%S%z` (`strptime_z`), which accepts a strict superset of the
claimed grammar. -/
def admitsProgrammePy (cc : String → String) (p : Elem) : Bool :=
  match (p.get "channel").map cc with
  | none => false
  | some cid =>
    cid != "" &&
    (match p.get "start", p.get "stop" with
     | some startT, some stopT =>
       startT != "" && stopT != "" &&
       (strptime_z (cleanWs startT)).isSome &&
       (strptime_z (cleanWs stopT)).isSome &&
       (match p.find "title" with
        | some t => t.text.isSome
        | none => false)
     | _, _ => false)

/-- The programmes a single source's programme table contributes under
one channel id, in internal order (spec §4.4 programme union). -/
def contrib (pr : Programmes) (k : String) : List Elem :=
  ((pr.filter (fun e => e.1 == k)).map Prod.snd).flatten

/-- The value attached to the last entry for a key in an ordered
association list (the last writer). -/
def lookupLast {α : Type} (d : List (String × α)) (k : String) : Option α :=
  match d with
  | [] => none
  | e :: rest =>
    match lookupLast rest k with
    | some v => some v
    | none => if e.1 = k then some e.2 else none

/-- The aggregate's programme list for a channel id (empty when the key
is absent, as a `defaultdict` reads). -/
def getProgs (d : Programmes) (k : String) : List Elem :=
  (dictGet d k).getD []

/-- The per-key consistency invariant of spec §3: every programme filed
under key `k` carries `channel = k`. -/
def ProgKeyInv (d : Programmes) : Prop :=
  ∀ kl ∈ d, ∀ e ∈ kl.2, e.get "channel" = some kl.1

/-- First-of-two options: `orO x y` is `x` when `x` is `some`, else `y`. -/
def orO {α : Type} (x y : Option α) : Option α :=
  match x with
  | some v => some v
  | none => y

/-- The identity script normalizer (no conversion), used to instantiate
the black-box converter in concrete witnesses. -/
def idcc : String → String := fun s => s

/-- Concrete source `programme` element: channel `c1`, valid timestamps
with internal whitespace and a `+0000` source offset, title "Morning". -/
def progSrc : Elem :=
  ⟨"programme",
   [("channel", "c1"), ("start", "20240101060000 +0000"),
    ("stop", "20240101070000 +0000")],
   none, [⟨"title", [], some "Morning", []⟩]⟩

/-- Concrete source `programme` element whose `start` is the malformed
`"20240101"` of spec §8 (too short for the grammar). -/
def progBad : Elem :=
  ⟨"programme",
   [("channel", "c1"), ("start", "20240101"),
    ("stop", "20240101070000 +0000")],
   none, [⟨"title", [], some "Bad", []⟩]⟩

/-- Concrete source `programme` element carrying non-`+0800` source
offsets (`+0530` and `-0145`). -/
def progOffset : Elem :=
  ⟨"programme",
   [("channel", "c1"), ("start", "20240101060000+0530"),
    ("stop", "20240101070000-0145")],
   none, [⟨"title", [], some "Shifted", []⟩]⟩

/-- Concrete source `channel` element with id `c0`. -/
def chanSrc : Elem :=
  ⟨"channel", [("id", "c0")], none,
   [⟨"display-name", [], some "Zero", []⟩]⟩

/-- Concrete document: one channel `c0` and one valid programme on the
undeclared channel `c1`. -/
def docA : Elem := ⟨"tv", [], none, [chanSrc, progSrc]⟩

/-- Concrete document containing one valid programme and no `channel`
elements at all. -/
def docB : Elem := ⟨"tv", [], none, [progSrc]⟩

/-- Concrete document with one channel, one malformed-timestamp
programme and one valid sibling programme. -/
def docC : Elem := ⟨"tv", [], none, [chanSrc, progBad, progSrc]⟩

/-- The element the parser rebuilds from `progSrc`: cleaned timestamps
reformatted with the fixed `+0800` suffix. -/
def progOut : Elem :=
  ⟨"programme",
   [("channel", "c1"), ("start", "20240101060000 +0800"),
    ("stop", "20240101070000 +0800")],
   none, [⟨"title", [], some "Morning", []⟩]⟩

/-- The element the parser rebuilds from `progOffset`: the wall-clock
digits are kept and both offsets are replaced by the literal `+0800`. -/
def progOffsetOut : Elem :=
  ⟨"programme",
   [("channel", "c1"), ("start", "20240101060000 +0800"),
    ("stop", "20240101070000 +0800")],
   none, [⟨"title", [], some "Shifted", []⟩]⟩

/-- An empty `tv` document (well-formed, no channels, no programmes). -/
def tvEmpty : Elem := ⟨"tv", [], none, []⟩

/-- The fresh parser state: empty cache, zero parses. -/
def st0 : EpgState := ⟨[], 0⟩

/-- Concrete source `programme` element whose timestamps use the `Z`
offset form `strptime` accepts but the claimed 19-character grammar
does not. -/
def progZ : Elem :=
  ⟨"programme",
   [("channel", "c1"), ("start", "20240101060000Z"),
    ("stop", "20240101070000Z")],
   none, [⟨"title", [], some "Zulu", []⟩]⟩

/-- Concrete document containing `progZ` (plus a channel, so the merge
guard keeps it). -/
def docZ : Elem := ⟨"tv", [], none, [chanSrc, progZ]⟩

/-- The element the parser rebuilds from `progZ`. -/
def progZOut : Elem :=
  ⟨"programme",
   [("channel", "c1"), ("start", "20240101060000 +0800"),
    ("stop", "20240101070000 +0800")],
   none, [⟨"title", [], some "Zulu", []⟩]⟩

/-! ## Lemmas about the dictionary model -/

theorem dictGet_dictSet {α : Type} (d : List (String × α)) (k' k : String) (v : α) :
    dictGet (dictSet d k' v) k = if k' = k then some v else dictGet d k := by
  induction d with
  | nil => simp [dictSet, dictGet]
  | cons e rest ih =>
    by_cases h : e.1 = k'
    · by_cases hk : k' = k <;> simp [dictSet, dictGet, h, hk]
    · by_cases hk : k' = k <;> by_cases he : e.1 = k <;>
        simp_all [dictSet, dictGet]

theorem mem_dictSet {α : Type} {d : List (String × α)} {k : String} {v : α}
    {x : String × α} (hx : x ∈ dictSet d k v) : x = (k, v) ∨ x ∈ d := by
  induction d with
  | nil => simpa [dictSet] using hx
  | cons e rest ih =>
    by_cases h : e.1 = k
    · simp only [dictSet, if_pos h, List.mem_cons] at hx
      rcases hx with h1 | h2
      · exact Or.inl h1
      · exact Or.inr (List.mem_cons_of_mem _ h2)
    · simp only [dictSet, if_neg h, List.mem_cons] at hx
      rcases hx with h1 | h2
      · exact Or.inr (h1 ▸ List.mem_cons_self _ _)
      · rcases ih h2 with h3 | h4
        · exact Or.inl h3
        · exact Or.inr (List.mem_cons_of_mem _ h4)

theorem dictGet_mem {α : Type} {d : List (String × α)} {k : String} {v : α}
    (h : dictGet d k = some v) : (k, v) ∈ d := by
  induction d with
  | nil => simp [dictGet] at h
  | cons e rest ih =>
    by_cases he : e.1 = k
    · simp only [dictGet, if_pos he, Option.some.injEq] at h
      have : e = (k, v) := by
        cases e
        simp_all
      exact this ▸ List.mem_cons_self _ _
    · simp only [dictGet, if_neg he] at h
      exact List.mem_cons_of_mem _ (ih h)

theorem getProgs_dictExtend (d : Programmes) (k' k : String) (l : List Elem) :
    getProgs (dictExtend d k' l) k = getProgs d k ++ if k' = k then l else [] := by
  unfold getProgs dictExtend
  rw [dictGet_dictSet]
  by_cases h : k' = k <;> simp [h]

theorem contrib_cons (e : String × List Elem) (pr : Programmes) (k : String) :
    contrib (e :: pr) k = (if e.1 = k then e.2 else []) ++ contrib pr k := by
  by_cases h : e.1 = k <;> simp [contrib, h]

theorem getProgs_extendList (pr : Programmes) (d : Programmes) (k : String) :
    getProgs (pr.foldl (fun a e => dictExtend a e.1 e.2) d) k
      = getProgs d k ++ contrib pr k := by
  induction pr generalizing d with
  | nil => simp [contrib, getProgs]
  | cons e pr ih =>
    rw [List.foldl_cons, ih, getProgs_dictExtend, contrib_cons, List.append_assoc]

theorem dictGet_updList {α : Type} (src : List (String × α))
    (d : List (String × α)) (k : String) :
    dictGet (src.foldl (fun a e => dictSet a e.1 e.2) d) k
      = orO (lookupLast src k) (dictGet d k) := by
  induction src generalizing d with
  | nil => simp [lookupLast, orO]
  | cons e src ih =>
    rw [List.foldl_cons, ih]
    cases hl : lookupLast src k with
    | some v => simp [lookupLast, hl, orO]
    | none =>
      simp only [lookupLast, hl, orO, dictGet_dictSet]
      by_cases h : e.1 = k <;> simp [h]

theorem lookupLast_cons {α : Type} (e : String × α) (l : List (String × α))
    (k : String) :
    lookupLast (e :: l) k
      = orO (lookupLast l k) (if e.1 = k then some e.2 else none) := by
  show (match lookupLast l k with
        | some v => some v
        | none => if e.1 = k then some e.2 else none) = _
  cases lookupLast l k <;> simp [orO]

theorem lookupLast_append {α : Type} (l1 l2 : List (String × α)) (k : String) :
    lookupLast (l1 ++ l2) k = orO (lookupLast l2 k) (lookupLast l1 k) := by
  induction l1 with
  | nil =>
    simp only [List.nil_append, lookupLast]
    cases lookupLast l2 k <;> rfl
  | cons e l1 ih =>
    rw [List.cons_append, lookupLast_cons, ih, lookupLast_cons]
    cases lookupLast l2 k <;> cases lookupLast l1 k <;> simp [orO]

/-! ## Lemmas about the merge fold -/

theorem isEmpty_false_of_ne_nil {α : Type} {l : List α} (h : l ≠ []) :
    l.isEmpty = false := by
  cases l with
  | nil => exact absurd rfl h
  | cons a l => rfl

theorem getProgs_mergeFoldAux (rs : List (Channels × Programmes))
    (acc : Channels × Programmes) (k : String)
    (h : ∀ r ∈ rs, r.1 ≠ []) :
    getProgs (rs.foldl mergeStep acc).2 k
      = getProgs acc.2 k ++ (rs.map (fun r => contrib r.2 k)).flatten := by
  induction rs generalizing acc with
  | nil => simp
  | cons r rs ih =>
    have hr : r.1 ≠ [] := h r (List.mem_cons_self _ _)
    have hrs : ∀ x ∈ rs, x.1 ≠ [] := fun x hx => h x (List.mem_cons_of_mem _ hx)
    rw [List.foldl_cons, ih _ hrs]
    rw [show mergeStep acc r
        = (r.1.foldl (fun a e => dictSet a e.1 e.2) acc.1,
           r.2.foldl (fun a e => dictExtend a e.1 e.2) acc.2) by
      unfold mergeStep
      rw [if_neg (by simp [isEmpty_false_of_ne_nil hr])]]
    rw [getProgs_extendList, List.map_cons, List.flatten_cons, List.append_assoc]

theorem dictGet_mergeFoldAux (rs : List (Channels × Programmes))
    (acc : Channels × Programmes) (k : String) :
    dictGet (rs.foldl mergeStep acc).1 k
      = orO (lookupLast ((rs.map Prod.fst).flatten) k) (dictGet acc.1 k) := by
  induction rs generalizing acc with
  | nil => simp [lookupLast, orO]
  | cons r rs ih =>
    rw [List.foldl_cons, ih, List.map_cons, List.flatten_cons, lookupLast_append]
    by_cases hr : r.1 = []
    · rw [show mergeStep acc r = acc by
        unfold mergeStep
        rw [if_pos (by simp [hr])]]
      rw [hr]
      cases lookupLast ((rs.map Prod.fst).flatten) k <;> simp [lookupLast, orO]
    · rw [show mergeStep acc r
          = (r.1.foldl (fun a e => dictSet a e.1 e.2) acc.1,
             r.2.foldl (fun a e => dictExtend a e.1 e.2) acc.2) by
        unfold mergeStep
        rw [if_neg (by simp [isEmpty_false_of_ne_nil hr])]]
      rw [dictGet_updList]
      cases lookupLast ((rs.map Prod.fst).flatten) k <;>
        cases lookupLast r.1 k <;> simp [orO]

/-! ## Lemmas about the programme loop -/

theorem transform2_eq_map (cc : String → String) (o : Option String) :
    transform2_zh_hans cc o = o.map cc := by
  cases o <;> rfl

theorem procProgramme_some {cc : String → String} {p : Elem}
    {ce : String × Elem} (h : procProgramme cc p = some ce) :
    ce.2.get "channel" = some ce.1 ∧ ce.1 ≠ ""
      ∧ (p.get "channel").map cc = some ce.1 := by
  unfold procProgramme at h
  repeat' split at h
  all_goals try (cases h)
  all_goals
    exact ⟨by simp [Elem.get, dictGet], by assumption,
           by rw [← transform2_eq_map]; assumption⟩

theorem procProgramme_isSome (cc : String → String) (p : Elem) :
    (procProgramme cc p).isSome = admitsProgrammePy cc p := by
  unfold procProgramme admitsProgrammePy
  rw [transform2_eq_map]
  cases (p.get "channel").map cc with
  | none => rfl
  | some cid =>
    dsimp only
    by_cases h0 : cid = ""
    · simp [h0]
    · rw [if_neg h0]
      have hb : (cid != "") = true := by simpa using h0
      rw [hb, Bool.true_and]
      cases p.get "start" with
      | none => rfl
      | some startT =>
        cases p.get "stop" with
        | none => rfl
        | some stopT =>
          dsimp only
          by_cases he1 : startT = ""
          · simp [he1]
          · by_cases he2 : stopT = ""
            · simp [he1, he2]
            · rw [if_neg (show ¬(startT = "" ∨ stopT = "") by tauto)]
              have hb1 : (startT != "") = true := by simpa using he1
              have hb2 : (stopT != "") = true := by simpa using he2
              rw [hb1, hb2, Bool.true_and, Bool.true_and]
              cases strptime_z (cleanWs startT) with
              | none => rfl
              | some ts =>
                cases strptime_z (cleanWs stopT) with
                | none => rfl
                | some tp =>
                  dsimp only
                  cases p.find "title" with
                  | none => rfl
                  | some t =>
                    dsimp only
                    cases t.text with
                    | none => rfl
                    | some txt => simp

theorem foldl_filter_admits (cc : String → String) (l : List Elem)
    (acc : Programmes) :
    l.foldl (fun prs p =>
      match procProgramme cc p with
      | some ce => dictExtend prs ce.1 [ce.2]
      | none => prs) acc
    = (l.filter (admitsProgrammePy cc)).foldl (fun prs p =>
      match procProgramme cc p with
      | some ce => dictExtend prs ce.1 [ce.2]
      | none => prs) acc := by
  induction l generalizing acc with
  | nil => rfl
  | cons p l ih =>
    by_cases h : admitsProgrammePy cc p
    · rw [List.filter_cons_of_pos h, List.foldl_cons, List.foldl_cons, ih]
    · have hf : admitsProgrammePy cc p = false := by
        simpa using h
      have hnone : procProgramme cc p = none := by
        have hs := procProgramme_isSome cc p
        rw [hf] at hs
        exact Option.not_isSome_iff_eq_none.mp (by simp [hs])
      rw [List.filter_cons_of_neg (by simp [hf]), List.foldl_cons]
      simp only [hnone]
      exact ih acc

theorem parseProgrammes_eq_foldl (cc : String → String) (root : Elem) :
    parseProgrammes cc root
      = (root.findall "programme").foldl (fun prs p =>
          match procProgramme cc p with
          | some ce => dictExtend prs ce.1 [ce.2]
          | none => prs) [] := rfl

theorem parseProgrammesAux_keys (cc : String → String) (l : List Elem)
    (acc : Programmes) (hacc : ∀ kv ∈ acc, kv.1 ≠ "") :
    ∀ kv ∈ l.foldl (fun prs p =>
      match procProgramme cc p with
      | some ce => dictExtend prs ce.1 [ce.2]
      | none => prs) acc, kv.1 ≠ "" := by
  induction l generalizing acc with
  | nil => simpa using hacc
  | cons p l ih =>
    rw [List.foldl_cons]
    apply ih
    cases hm : procProgramme cc p with
    | none => simpa using hacc
    | some ce =>
      intro kv hkv
      rcases mem_dictSet hkv with h1 | h2
      · rw [h1]
        exact (procProgramme_some hm).2.1
      · exact hacc kv h2

theorem parseProgrammesAux_inv (cc : String → String) (l : List Elem)
    (acc : Programmes) (hacc : ProgKeyInv acc) :
    ProgKeyInv (l.foldl (fun prs p =>
      match procProgramme cc p with
      | some ce => dictExtend prs ce.1 [ce.2]
      | none => prs) acc) := by
  induction l generalizing acc with
  | nil => simpa using hacc
  | cons p l ih =>
    rw [List.foldl_cons]
    apply ih
    cases hm : procProgramme cc p with
    | none => simpa using hacc
    | some ce =>
      intro kl hkl e he
      rcases mem_dictSet hkl with h1 | h2
      · subst h1
        rcases List.mem_append.mp he with hL | hR
        · cases hg : dictGet acc ce.1 with
          | none => rw [hg] at hL; simp at hL
          | some l0 =>
            rw [hg] at hL
            exact hacc (ce.1, l0) (dictGet_mem hg) e (by simpa using hL)
        · have : e = ce.2 := by simpa using hR
          rw [this]
          exact (procProgramme_some hm).1
      · exact hacc kl h2 e he

theorem parseChannelsAux_keys (cc : String → String) (l : List Elem)
    (acc : Channels) (hacc : ∀ kv ∈ acc, kv.1 ≠ "") :
    ∀ kv ∈ l.foldl (fun chs ch =>
      match transform2_zh_hans cc (ch.get "id") with
      | none => chs
      | some cid =>
        if cid = "" then chs
        else
          dictSet chs cid
            (match ch.find "display-name" with
             | some dn => transform2_zh_hans cc dn.text
             | none => some (cc ""))) acc, kv.1 ≠ "" := by
  induction l generalizing acc with
  | nil => simpa using hacc
  | cons ch l ih =>
    rw [List.foldl_cons]
    apply ih
    cases hm : transform2_zh_hans cc (ch.get "id") with
    | none => simpa using hacc
    | some cid =>
      by_cases h0 : cid = ""
      · simpa [h0] using hacc
      · simp only [if_neg h0]
        intro kv hkv
        rcases mem_dictSet hkv with h1 | h2
        · rw [h1]; exact h0
        · exact hacc kv h2

/-! ## Lemmas about serialization -/

theorem mem_writeFold_init {progs : Programmes} {init : List Elem}
    {x : Elem} (hx : x ∈ init) :
    x ∈ progs.foldl (fun acc kv =>
      acc ++ kv.2.map (fun p => p.setAttr "channel" kv.1)) init := by
  induction progs generalizing init with
  | nil => simpa using hx
  | cons kv progs ih =>
    rw [List.foldl_cons]
    exact ih (List.mem_append_left _ hx)

theorem mem_writeFold {progs : Programmes} {init : List Elem}
    {kl : String × List Elem} {p : Elem}
    (hkl : kl ∈ progs) (hp : p ∈ kl.2) :
    (p.setAttr "channel" kl.1) ∈ progs.foldl (fun acc kv =>
      acc ++ kv.2.map (fun q => q.setAttr "channel" kv.1)) init := by
  induction progs generalizing init with
  | nil => cases hkl
  | cons kv progs ih =>
    rw [List.foldl_cons]
    rcases List.mem_cons.mp hkl with h1 | h2
    · subst h1
      exact mem_writeFold_init
        (List.mem_append_right _ (List.mem_map.mpr ⟨p, hp, rfl⟩))
    · exact ih h2

theorem setAttr_get_same (p : Elem) (name v : String) :
    (p.setAttr name v).get name = some v := by
  unfold Elem.setAttr Elem.get
  rw [dictGet_dictSet, if_pos rfl]

/-! ## Key-consistency preservation through the merge -/

theorem progKeyInv_dictExtend {d : Programmes} {k : String} {l : List Elem}
    (hd : ProgKeyInv d) (hl : ∀ e ∈ l, e.get "channel" = some k) :
    ProgKeyInv (dictExtend d k l) := by
  intro kl hkl e he
  rcases mem_dictSet hkl with h1 | h2
  · subst h1
    rcases List.mem_append.mp he with hL | hR
    · cases hg : dictGet d k with
      | none => rw [hg] at hL; simp at hL
      | some l0 =>
        rw [hg] at hL
        exact hd (k, l0) (dictGet_mem hg) e (by simpa using hL)
    · exact hl e hR
  · exact hd kl h2 e he

theorem progKeyInv_extendList {pr d : Programmes}
    (hd : ProgKeyInv d) (hpr : ProgKeyInv pr) :
    ProgKeyInv (pr.foldl (fun a e => dictExtend a e.1 e.2) d) := by
  induction pr generalizing d with
  | nil => simpa using hd
  | cons e pr ih =>
    rw [List.foldl_cons]
    exact ih
      (progKeyInv_dictExtend hd
        (fun x hx => hpr e (List.mem_cons_self _ _) x hx))
      (fun kl hkl => hpr kl (List.mem_cons_of_mem _ hkl))

theorem progKeyInv_mergeFoldAux {rs : List (Channels × Programmes)}
    {acc : Channels × Programmes}
    (hacc : ProgKeyInv acc.2) (hrs : ∀ r ∈ rs, ProgKeyInv r.2) :
    ProgKeyInv (rs.foldl mergeStep acc).2 := by
  induction rs generalizing acc with
  | nil => simpa using hacc
  | cons r rs ih =>
    rw [List.foldl_cons]
    refine ih ?_ (fun x hx => hrs x (List.mem_cons_of_mem _ hx))
    unfold mergeStep
    by_cases h : r.1.isEmpty
    · rw [if_pos h]
      exact hacc
    · rw [if_neg h]
      exact progKeyInv_extendList hacc (hrs r (List.mem_cons_self _ _))

/-! ## Path lemmas for `parse_epg` -/

theorem parse_epg_none (cc : String → String)
    (xmlParse : String → Option Elem) (st : EpgState) (uc : Bool) :
    parse_epg cc xmlParse st none uc = (([], []), st) := rfl

theorem parse_epg_blank (cc : String → String)
    (xmlParse : String → Option Elem) (st : EpgState) (uc : Bool)
    (s : String) (hs : pyStrip s = "") :
    parse_epg cc xmlParse st (some s) uc = (([], []), st) := by
  unfold parse_epg
  dsimp only
  rw [if_pos hs]

theorem parse_epg_hit (cc : String → String)
    (xmlParse : String → Option Elem) (st : EpgState)
    (s : String) (r : Channels × Programmes)
    (hs : pyStrip s ≠ "") (hhit : dictGet st.cache (get_content_hash s) = some r) :
    parse_epg cc xmlParse st (some s) true = (r, st) := by
  unfold parse_epg
  dsimp only
  rw [if_neg hs]
  simp only [if_true, hhit]

theorem parse_epg_badxml (cc : String → String)
    (xmlParse : String → Option Elem) (st : EpgState) (uc : Bool)
    (s : String)
    (hs : pyStrip s ≠ "") (hx : xmlParse s = none)
    (hmiss : dictGet st.cache (get_content_hash s) = none) :
    parse_epg cc xmlParse st (some s) uc
      = (([], []), ⟨st.cache, st.parseCount + 1⟩) := by
  unfold parse_epg
  dsimp only
  rw [if_neg hs]
  have hcache : (if uc then dictGet st.cache (get_content_hash s) else none)
      = none := by
    cases uc <;> simp [hmiss]
  rw [hcache]
  simp only [hx]

theorem parse_epg_miss (cc : String → String)
    (xmlParse : String → Option Elem) (st : EpgState) (uc : Bool)
    (s : String) (root : Elem)
    (hs : pyStrip s ≠ "") (hx : xmlParse s = some root)
    (hmiss : dictGet st.cache (get_content_hash s) = none) :
    parse_epg cc xmlParse st (some s) uc
      = ((parseChannels cc root, parseProgrammes cc root),
         if uc then
           ⟨dictSet st.cache (get_content_hash s)
              (parseChannels cc root, parseProgrammes cc root),
            st.parseCount + 1⟩
         else ⟨st.cache, st.parseCount + 1⟩) := by
  unfold parse_epg
  dsimp only
  rw [if_neg hs]
  have hcache : (if uc then dictGet st.cache (get_content_hash s) else none)
      = none := by
    cases uc <;> simp [hmiss]
  rw [hcache]
  simp only [hx]
  cases uc <;> simp

/-! ## The claimed grammar is included in the parser grammar -/

theorem daysInMonth_le (y m : Nat) : daysInMonth y m ≤ 31 := by
  unfold daysInMonth
  split
  · split <;> omega
  · split <;> omega

theorem num2_fst_digit {a b : Char} {v : Nat} (h : num2 a b = some v) :
    a.isDigit = true := by
  unfold num2 digitVal at h
  by_cases ha : a.isDigit
  · exact ha
  · simp [ha] at h

theorem isDigit_ne_colon {c : Char} (h : c.isDigit = true) : c ≠ ':' := by
  intro hc
  rw [hc] at h
  cases h

/-- Evaluation of `strptime_z` along the path a 19-character
`YYYYMMDDHHMMSS±HHMM` input takes: every numeric directive matches its
two-digit alternative first and the continuation succeeds, so the
backtracking search returns the all-two-digit assignment, the offset
parses without colon or seconds part, and the validity checks pass. -/
theorem strptime_z_spec_path (q : String)
    (y1 y2 y3 y4 mo1 mo2 d1 d2 hh1 hh2 mi1 mi2 se1 se2 sg oh1 oh2 om1 om2 : Char)
    (a b mo d hh mi se oh om : Nat) (neg : Bool)
    (heq : q.data = [y1, y2, y3, y4, mo1, mo2, d1, d2, hh1, hh2, mi1, mi2,
      se1, se2, sg, oh1, oh2, om1, om2])
    (hA : num2 y1 y2 = some a) (hB : num2 y3 y4 = some b)
    (hC : num2 mo1 mo2 = some mo) (hD : num2 d1 d2 = some d)
    (hE : num2 hh1 hh2 = some hh) (hF : num2 mi1 mi2 = some mi)
    (hG : num2 se1 se2 = some se)
    (hH : num2 oh1 oh2 = some oh) (hI : num2 om1 om2 = some om)
    (hsg : (sg == '+' || sg == '-') = true) (hneg : (sg == '-') = neg)
    (hy : 1 ≤ a * 100 + b) (hmo1 : 1 ≤ mo) (hmo2 : mo ≤ 12)
    (hd1 : 1 ≤ d) (hd2 : d ≤ daysInMonth (a * 100 + b) mo)
    (hhh : hh ≤ 23) (hmi : mi ≤ 59) (hse : se ≤ 59)
    (hom : om ≤ 59) (hoff : oh * 60 + om < 1440) :
    strptime_z q = some ⟨a * 100 + b, mo, d, hh, mi, se, neg, oh, om, 0, 0⟩ := by
  have hncolon : om1 ≠ ':' := isDigit_ne_colon (num2_fst_digit hI)
  have hsgp : sg = '+' ∨ sg = '-' := by simpa using hsg
  have hd31 : d ≤ 31 := le_trans hd2 (daysInMonth_le _ _)
  have hse61 : se ≤ 61 := by omega
  have hoffus : (oh * 3600 + om * 60 + 0) * 1000000 + 0 < 86400000000 := by
    omega
  unfold strptime_z
  rw [heq]
  simp [matchY, matchMonth, matchDay, matchHour, matchMin, matchSec,
        matchZ, matchMM2, matchSecPart, numField, firstSome, zToOffset,
        hA, hB, hC, hD, hE, hF, hG, hH, hI, hsg, hsgp, hneg, hncolon,
        hy, hmo1, hmo2, hd1, hd2, hd31, hhh, hmi, hse, hse61, hom, hoffus]
  omega

theorem optBind_some {α β : Type} (a : α) (f : α → Option β) :
    (do let x ← some a; f x : Option β) = f a := rfl

theorem optBind_none {α β : Type} (f : α → Option β) :
    (do let x ← (none : Option α); f x : Option β) = none := rfl

/-- Inclusion of grammars: every timestamp the spec's claimed grammar
`YYYYMMDDHHMMSS±HHMM` accepts is parsed, to the same value, by the
program's `strptime` — the program's grammar is a superset. -/
theorem specTimestamp_le_strptime (q : String) (t : Timestamp)
    (h : specTimestamp q = some t) : strptime_z q = some t := by
  unfold specTimestamp at h
  split at h
  case h_2 => cases h
  case h_1 y1 y2 y3 y4 mo1 mo2 d1 d2 hh1 hh2 mi1 mi2 se1 se2 sg
      oh1 oh2 om1 om2 heq =>
    cases hA : num2 y1 y2 with
    | none => rw [hA] at h; exact Option.noConfusion h
    | some a =>
    cases hB : num2 y3 y4 with
    | none => rw [hA, hB] at h; exact Option.noConfusion h
    | some b =>
    cases hC : num2 mo1 mo2 with
    | none => rw [hA, hB, hC] at h; exact Option.noConfusion h
    | some mo =>
    cases hD : num2 d1 d2 with
    | none => rw [hA, hB, hC, hD] at h; exact Option.noConfusion h
    | some d =>
    cases hE : num2 hh1 hh2 with
    | none => rw [hA, hB, hC, hD, hE] at h; exact Option.noConfusion h
    | some hh =>
    cases hF : num2 mi1 mi2 with
    | none => rw [hA, hB, hC, hD, hE, hF] at h; exact Option.noConfusion h
    | some mi =>
    cases hG : num2 se1 se2 with
    | none => rw [hA, hB, hC, hD, hE, hF, hG] at h; exact Option.noConfusion h
    | some se =>
    cases hH : num2 oh1 oh2 with
    | none =>
      rw [hA, hB, hC, hD, hE, hF, hG, hH] at h
      simp only [optBind_some, optBind_none] at h
      repeat' split at h
      all_goals exact Option.noConfusion h
    | some oh =>
    cases hI : num2 om1 om2 with
    | none =>
      rw [hA, hB, hC, hD, hE, hF, hG, hH, hI] at h
      simp only [optBind_some, optBind_none] at h
      repeat' split at h
      all_goals exact Option.noConfusion h
    | some om =>
    rw [hA, hB, hC, hD, hE, hF, hG, hH, hI] at h
    simp only [optBind_some] at h
    by_cases hsg1 : sg = '+'
    · rw [if_pos hsg1] at h
      split at h
      next hcond =>
        obtain ⟨g1, g2, g3, g4, g5, g6, g7, g8, g9, g10⟩ := hcond
        rw [← h]
        exact strptime_z_spec_path q y1 y2 y3 y4 mo1 mo2 d1 d2 hh1 hh2
          mi1 mi2 se1 se2 sg oh1 oh2 om1 om2 a b mo d hh mi se oh om false
          heq hA hB hC hD hE hF hG hH hI
          (by rw [hsg1]; rfl) (by rw [hsg1]; rfl)
          g1 g2 g3 g4 g5 g6 g7 g8 g9 g10
      next => exact Option.noConfusion h
    · by_cases hsg2 : sg = '-'
      · rw [if_neg hsg1, if_pos hsg2] at h
        split at h
        next hcond =>
          obtain ⟨g1, g2, g3, g4, g5, g6, g7, g8, g9, g10⟩ := hcond
          rw [← h]
          exact strptime_z_spec_path q y1 y2 y3 y4 mo1 mo2 d1 d2 hh1 hh2
            mi1 mi2 se1 se2 sg oh1 oh2 om1 om2 a b mo d hh mi se oh om true
            heq hA hB hC hD hE hF hG hH hI
            (by rw [hsg2]; rfl) (by rw [hsg2]; rfl)
            g1 g2 g3 g4 g5 g6 g7 g8 g9 g10
        next => exact Option.noConfusion h
      · rw [if_neg hsg1, if_neg hsg2] at h
        exact Option.noConfusion h

/-! ## Claim theorems -/

/-- C1 counterexample: the claim says a programme appears in the output
only if its `start`/`stop` parse under the grammar
`YYYYMMDDHHMMSS±HHMM`, but the programme element `progZ`, whose
timestamps use the 15-character `Z`-offset form the claimed grammar
rejects (`specTimestamp` returns `none`, so the spec-side admission
predicate is false), is nevertheless admitted by the parser loop and
filed into the programme table — `strptime` accepts more than the
claimed grammar. -/
theorem c1_grammar_counterexample :
    specTimestamp "20240101060000Z" = none
    ∧ strptime_z "20240101060000Z"
      = some ⟨2024, 1, 1, 6, 0, 0, false, 0, 0, 0, 0⟩
    ∧ admitsProgramme idcc progZ = false
    ∧ procProgramme idcc progZ = some ("c1", progZOut)
    ∧ parseProgrammes idcc docZ = [("c1", [progZOut])] :=
  ⟨rfl, rfl, rfl, rfl, rfl⟩

/-- C1 (amended): Model-admission filtering by the Guide Parser, with
the timestamp grammar being the one `datetime.strptime` with
`%Y%m%d%H%M%S%z` actually accepts — a strict superset of the claimed
`YYYYMMDDHHMMSS±HHMM` (last conjunct: every timestamp of the claimed
grammar parses, to the same value).  On a fresh parse of a well-formed
document, `parse_epg`'s output is exactly the channel and programme
tables built from the document; no channel key and no programme key is
the empty string (and `None` keys are skipped before entering either
table); a programme element is processed into the output exactly when
it passes the program's admission checks — non-empty normalized channel
id, present non-empty `start`/`stop` that `strptime`-parse after
whitespace stripping, and a `title` child with present (hence
non-empty, under the ET text convention) text; and the programme table
equals the fold over only the admitted programme elements, so a failing
programme is skipped while its valid siblings are still included. -/
theorem c1_parser_admission (cc : String → String)
    (xmlParse : String → Option Elem) (st : EpgState) (uc : Bool)
    (s : String) (root : Elem)
    (hs : pyStrip s ≠ "") (hx : xmlParse s = some root)
    (hmiss : dictGet st.cache (get_content_hash s) = none) :
    (parse_epg cc xmlParse st (some s) uc).1
      = (parseChannels cc root, parseProgrammes cc root)
    ∧ (∀ kv ∈ parseChannels cc root, kv.1 ≠ "")
    ∧ (∀ kv ∈ parseProgrammes cc root, kv.1 ≠ "")
    ∧ (∀ p : Elem, (procProgramme cc p).isSome = admitsProgrammePy cc p)
    ∧ parseProgrammes cc root
        = ((root.findall "programme").filter (admitsProgrammePy cc)).foldl
            (fun prs p =>
              match procProgramme cc p with
              | some ce => dictExtend prs ce.1 [ce.2]
              | none => prs) []
    ∧ (∀ (q : String) (t : Timestamp),
        specTimestamp q = some t → strptime_z q = some t) := by
  refine ⟨?_, ?_, ?_, procProgramme_isSome cc, ?_, specTimestamp_le_strptime⟩
  · rw [parse_epg_miss cc xmlParse st uc s root hs hx hmiss]
  · exact parseChannelsAux_keys cc _ [] (by simp)
  · exact parseProgrammesAux_keys cc _ [] (by simp)
  · rw [parseProgrammes_eq_foldl, foldl_filter_admits]

/-- Witness for C1 at a concrete document: one channel `c0`, one
programme with the malformed start `"20240101"` (skipped), one valid
sibling programme (admitted). -/
theorem c1_parser_admission_witness :
    (parse_epg idcc (fun _ => some docC) st0 (some "<tv>") true).1
      = (parseChannels idcc docC, parseProgrammes idcc docC) :=
  (c1_parser_admission idcc (fun _ => some docC) st0 true "<tv>" docC
    (by decide) rfl rfl).1

/-- C2 counterexample: a per-source parse result with programmes but an
empty channel table (obtained from a real document, `docB`, that has a
valid programme and no `channel` elements) is dropped wholesale by the
merge loop's `if channels:` guard, so the aggregate does NOT contain the
concatenation of every source's programmes: the source contributes
`progOut` under `c1`, yet the merged aggregate is empty. -/
theorem c2_union_counterexample :
    (parseChannels idcc docB, parseProgrammes idcc docB)
      = (([] : Channels), [("c1", [progOut])])
    ∧ mergeFold [(parseChannels idcc docB, parseProgrammes idcc docB)]
      = ([], [])
    ∧ getProgs (mergeFold
        [(parseChannels idcc docB, parseProgrammes idcc docB)]).2 "c1"
      = [] :=
  ⟨rfl, rfl, rfl⟩

/-- C2 (amended): for every ordered sequence of per-source parse results
in which every source's channel table is non-empty, the aggregate's
programme list for each id is the concatenation, in source order and
preserving per-source internal order, of every programme those sources
contribute under that id (append, never replace, no de-duplication). -/
theorem c2_programme_union (rs : List (Channels × Programmes)) (k : String)
    (h : ∀ r ∈ rs, r.1 ≠ []) :
    getProgs (mergeFold rs).2 k
      = (rs.map (fun r => contrib r.2 k)).flatten := by
  unfold mergeFold
  rw [getProgs_mergeFoldAux rs ([], []) k h]
  simp [getProgs, dictGet]

/-- Witness for C2 (amended): two sources, each with a non-empty channel
table and one programme on `c1`; the aggregate holds both programmes in
source order. -/
theorem c2_programme_union_witness :
    getProgs (mergeFold
      [([("c1", some "A Name")], [("c1", [progOut])]),
       ([("c1", some "B Name")], [("c1", [progOffsetOut])])]).2 "c1"
      = [progOut, progOffsetOut] := by
  rw [c2_programme_union
    [([("c1", some "A Name")], [("c1", [progOut])]),
     ([("c1", some "B Name")], [("c1", [progOffsetOut])])] "c1" (by decide)]
  rfl

/-- C3: Guide Parser totality.  `parse_epg` is a total function of the
embedding (it cannot raise), and on a `None` input, a whitespace-only
input, or an input that fails to parse as well-formed markup (given its
fingerprint is not cached — blank and malformed documents never are,
see C5), it returns an empty channel map and an empty programme map. -/
theorem c3_parser_totality (cc : String → String)
    (xmlParse : String → Option Elem) (st : EpgState) (uc : Bool)
    (s : String) :
    parse_epg cc xmlParse st none uc = (([], []), st)
    ∧ (pyStrip s = "" → parse_epg cc xmlParse st (some s) uc = (([], []), st))
    ∧ (pyStrip s ≠ "" → xmlParse s = none →
        dictGet st.cache (get_content_hash s) = none →
        (parse_epg cc xmlParse st (some s) uc).1 = ([], [])) := by
  refine ⟨rfl, fun hs => parse_epg_blank cc xmlParse st uc s hs,
    fun hs hx hm => ?_⟩
  rw [parse_epg_badxml cc xmlParse st uc s hs hx hm]

/-- Witness for C3 at the malformed document `"<"` against an empty
cache: the parser returns empty maps. -/
theorem c3_parser_totality_witness :
    (parse_epg idcc (fun _ => none) st0 (some "<") true).1 = ([], []) :=
  (c3_parser_totality idcc (fun _ => none) st0 true "<").2.2
    (by decide) rfl rfl

/-- C4 counterexample: the claim quantifies over every raw document
text, but a malformed document's empty result is returned before the
cache store, so parsing the same malformed bytes `"<"` twice re-enters
the parsing stage both times: the parse-count counter reaches 2, not 1. -/
theorem c4_idempotence_counterexample :
    (parse_epg idcc (fun _ => none)
      (parse_epg idcc (fun _ => none) st0 (some "<") true).2
      (some "<") true).2.parseCount = 2 :=
  rfl

/-- C4 (amended): for every non-blank raw document text that parses as
well-formed markup and whose fingerprint is not yet cached, a second
`parse_epg` call with the same bytes returns the identical cached result
and leaves the state untouched — no re-parse, the parse-count stays at
one above its initial value across both calls. -/
theorem c4_cache_idempotent (cc : String → String)
    (xmlParse : String → Option Elem) (st : EpgState) (s : String)
    (root : Elem)
    (hs : pyStrip s ≠ "") (hx : xmlParse s = some root)
    (hmiss : dictGet st.cache (get_content_hash s) = none) :
    parse_epg cc xmlParse
        (parse_epg cc xmlParse st (some s) true).2 (some s) true
      = ((parse_epg cc xmlParse st (some s) true).1,
         (parse_epg cc xmlParse st (some s) true).2)
    ∧ (parse_epg cc xmlParse st (some s) true).2.parseCount
      = st.parseCount + 1 := by
  have h1 : parse_epg cc xmlParse st (some s) true
      = ((parseChannels cc root, parseProgrammes cc root),
         ⟨dictSet st.cache (get_content_hash s)
            (parseChannels cc root, parseProgrammes cc root),
          st.parseCount + 1⟩) := by
    rw [parse_epg_miss cc xmlParse st true s root hs hx hmiss]
    simp
  constructor
  · rw [h1]
    exact parse_epg_hit cc xmlParse _ s _ hs
      (by rw [dictGet_dictSet, if_pos rfl])
  · rw [h1]

/-- Witness for C4 (amended) at the well-formed document `"<tv/>"`. -/
theorem c4_cache_idempotent_witness :
    (parse_epg idcc (fun _ => some tvEmpty) st0 (some "<tv/>") true).2.parseCount
      = st0.parseCount + 1 :=
  (c4_cache_idempotent idcc (fun _ => some tvEmpty) st0 "<tv/>" tvEmpty
    (by decide) rfl rfl).2

/-- C5 counterexample: after a first parse of the malformed document
`"<"` its fingerprint is still absent from the cache — the parser
returns at the malformed-markup branch before the store, contradicting
"after any first parse of a document (including one whose markup is
malformed) the result for that fingerprint is present in the cache". -/
theorem c5_store_counterexample :
    dictGet (parse_epg idcc (fun _ => none) st0 (some "<") true).2.cache
      (get_content_hash "<") = none :=
  rfl

/-- C5 (amended): for every non-blank raw document text whose
fingerprint is not yet cached, if the markup is well-formed the parser
is invoked (counter increment) and its result is stored keyed by the
fingerprint and returned; a malformed document's empty result is
returned without being stored (the cache is unchanged). -/
theorem c5_store_on_miss (cc : String → String)
    (xmlParse : String → Option Elem) (st : EpgState) (s : String)
    (root : Elem)
    (hs : pyStrip s ≠ "")
    (hmiss : dictGet st.cache (get_content_hash s) = none) :
    (xmlParse s = some root →
      dictGet (parse_epg cc xmlParse st (some s) true).2.cache
          (get_content_hash s)
        = some (parse_epg cc xmlParse st (some s) true).1
      ∧ (parse_epg cc xmlParse st (some s) true).2.parseCount
        = st.parseCount + 1)
    ∧ (xmlParse s = none →
        (parse_epg cc xmlParse st (some s) true).2.cache = st.cache) := by
  constructor
  · intro hx
    have h1 : parse_epg cc xmlParse st (some s) true
        = ((parseChannels cc root, parseProgrammes cc root),
           ⟨dictSet st.cache (get_content_hash s)
              (parseChannels cc root, parseProgrammes cc root),
            st.parseCount + 1⟩) := by
      rw [parse_epg_miss cc xmlParse st true s root hs hx hmiss]
      simp
    rw [h1]
    exact ⟨by rw [dictGet_dictSet, if_pos rfl], rfl⟩
  · intro hx
    rw [parse_epg_badxml cc xmlParse st true s hs hx hmiss]

/-- Witness for C5 (amended) at the well-formed document `"<tv/>"`: the
fingerprint maps to the returned result after the first parse. -/
theorem c5_store_on_miss_witness :
    dictGet (parse_epg idcc (fun _ => some tvEmpty) st0
        (some "<tv/>") true).2.cache (get_content_hash "<tv/>")
      = some (parse_epg idcc (fun _ => some tvEmpty) st0
          (some "<tv/>") true).1 :=
  ((c5_store_on_miss idcc (fun _ => some tvEmpty) st0 "<tv/>" tvEmpty
    (by decide) rfl).1 rfl).1

/-- C6: fixed-output-offset timestamp reformatting.  Every admitted
programme's output `start`/`stop` attributes are the parsed timestamp's
wall-clock digits reformatted as `YYYYMMDDHHMMSS` followed by the
literal ` +0800`; and `strftime_epg` depends only on the wall-clock
fields, so the parsed source offset never influences the output (no
conversion into the `+0800` zone takes place). -/
theorem c6_fixed_output_offset (cc : String → String) (p : Elem)
    (ce : String × Elem) (h : procProgramme cc p = some ce) :
    (∃ startT stopT ts tp,
        p.get "start" = some startT ∧ p.get "stop" = some stopT
      ∧ strptime_z (cleanWs startT) = some ts
      ∧ strptime_z (cleanWs stopT) = some tp
      ∧ ce.2.get "start" = some (strftime_epg ts)
      ∧ ce.2.get "stop" = some (strftime_epg tp))
    ∧ (∀ t1 t2 : Timestamp, t1.year = t2.year → t1.month = t2.month →
        t1.day = t2.day → t1.hour = t2.hour → t1.minute = t2.minute →
        t1.second = t2.second → strftime_epg t1 = strftime_epg t2) := by
  constructor
  · unfold procProgramme at h
    repeat' split at h
    all_goals try (cases h)
    all_goals
      exact ⟨_, _, _, _, by assumption, by assumption, by assumption,
        by assumption, by simp [Elem.get, dictGet], by simp [Elem.get, dictGet]⟩
  · intro t1 t2 h1 h2 h3 h4 h5 h6
    unfold strftime_epg
    rw [h1, h2, h3, h4, h5, h6]

/-- Witness for C6 at `progOffset`, whose source offsets are `+0530`
and `-0145`: both outputs carry the literal ` +0800`. -/
theorem c6_fixed_output_offset_witness :
    (∃ startT stopT ts tp,
        progOffset.get "start" = some startT
      ∧ progOffset.get "stop" = some stopT
      ∧ strptime_z (cleanWs startT) = some ts
      ∧ strptime_z (cleanWs stopT) = some tp
      ∧ ("c1", progOffsetOut).2.get "start" = some (strftime_epg ts)
      ∧ ("c1", progOffsetOut).2.get "stop" = some (strftime_epg tp))
    ∧ (∀ t1 t2 : Timestamp, t1.year = t2.year → t1.month = t2.month →
        t1.day = t2.day → t1.hour = t2.hour → t1.minute = t2.minute →
        t1.second = t2.second → strftime_epg t1 = strftime_epg t2) :=
  c6_fixed_output_offset idcc progOffset ("c1", progOffsetOut) rfl

/-- C7: last-write-wins channel union.  The aggregate channel table maps
each id to the value of the last entry for that id over all sources'
channel tables in processing order (a source with an empty channel table
defines nothing); in particular for two sources both defining `k` with
display names `n1` and `n2`, the merged value at `k` is `n2`. -/
theorem c7_last_write_wins (rs : List (Channels × Programmes)) (k : String) :
    dictGet (mergeFold rs).1 k = lookupLast ((rs.map Prod.fst).flatten) k
    ∧ (∀ (n1 n2 : Option String) (pr1 pr2 : Programmes),
        dictGet (mergeFold [([(k, n1)], pr1), ([(k, n2)], pr2)]).1 k
          = some n2) := by
  constructor
  · unfold mergeFold
    rw [dictGet_mergeFoldAux]
    cases lookupLast ((rs.map Prod.fst).flatten) k <;> simp [orO, dictGet]
  · intro n1 n2 pr1 pr2
    simp [mergeFold, mergeStep, dictSet, dictGet]

/-- C8: Fetcher failure isolation and positional stability.  For every
ordered sequence of per-locator outcomes (success, client/network error,
non-success HTTP status, timeout, any other exception), `fetchAll`
returns a sequence of the same length; index `i` holds the fetched text
exactly when locator `i` succeeded and the absent marker `none` on every
failure class; no failure propagates (`fetch_epg` is total and never
leaves `none`-production for an exception). -/
theorem c8_fetch_isolation (outcomes : List FetchOutcome) :
    (fetchAll outcomes).length = outcomes.length
    ∧ (∀ i : Nat, (fetchAll outcomes)[i]? = (outcomes[i]?).map fetch_epg)
    ∧ (∀ i : Nat, ∀ t : String,
        outcomes[i]? = some (FetchOutcome.success t) →
        (fetchAll outcomes)[i]? = some (some t))
    ∧ (∀ i : Nat, ∀ o : FetchOutcome,
        outcomes[i]? = some o →
        (∀ t : String, o ≠ FetchOutcome.success t) →
        (fetchAll outcomes)[i]? = some none) := by
  refine ⟨by simp [fetchAll], fun i => by simp [fetchAll], ?_, ?_⟩
  · intro i t hi
    simp [fetchAll, hi, fetch_epg]
  · intro i o hi ho
    have hnone : fetch_epg o = none := by
      cases o
      case success t => exact absurd rfl (ho t)
      all_goals rfl
    simp [fetchAll, hi, hnone]

/-- Witness for C8: a success followed by a timeout; position 1 of the
result is the absent marker. -/
theorem c8_fetch_isolation_witness :
    (fetchAll [FetchOutcome.success "a", FetchOutcome.timedOut])[1]?
      = some none :=
  (c8_fetch_isolation [FetchOutcome.success "a", FetchOutcome.timedOut]).2.2.2
    1 FetchOutcome.timedOut rfl (fun _ h => FetchOutcome.noConfusion h)

/-- C9: programme-key consistency at every stage.  Every programme in
the per-document parse output sits under its own channel id; the merge
fold preserves the invariant; and serialization re-sets each written
programme's `channel` attribute to the key it is filed under, so every
programme element appended to the output document carries the channel
id of its key. -/
theorem c9_key_consistency (cc : String → String) (root : Elem)
    (rs : List (Channels × Programmes)) (channels : Channels)
    (progs : Programmes) (now : String) :
    ProgKeyInv (parseProgrammes cc root)
    ∧ ((∀ r ∈ rs, ProgKeyInv r.2) → ProgKeyInv (mergeFold rs).2)
    ∧ (∀ kl ∈ progs, ∀ p ∈ kl.2,
        (p.setAttr "channel" kl.1).get "channel" = some kl.1
        ∧ (p.setAttr "channel" kl.1)
            ∈ (write_to_xml channels progs now).children) := by
  refine ⟨?_, ?_, ?_⟩
  · rw [parseProgrammes_eq_foldl]
    exact parseProgrammesAux_inv cc _ [] (fun kl hkl => by cases hkl)
  · intro hrs
    exact progKeyInv_mergeFoldAux (fun kl hkl => by cases hkl) hrs
  · intro kl hkl p hp
    exact ⟨setAttr_get_same p "channel" kl.1,
      List.mem_append_right _ (mem_writeFold hkl hp)⟩

/-- Witness for C9: the concrete programme `progOut` filed under `c1`
keeps `channel = c1` when written. -/
theorem c9_key_consistency_witness :
    (progOut.setAttr "channel" "c1").get "channel" = some "c1" :=
  ((c9_key_consistency idcc docA [] [] [("c1", [progOut])] "now").2.2
    ("c1", [progOut]) (List.mem_singleton.mpr rfl)
    progOut (List.mem_singleton.mpr rfl)).1

/-- C10 (implicit): programmes are never validated against the channel
table.  For the concrete document `docA` — channel `c0` declared, one
programme referencing the undeclared channel `c1` — the programme is
admitted by the parser, survives the merge, and is written to the
output document, while no channel with id `c1` exists at any stage: the
key set of `programmesByChannel` is not a subset of the key set of
`channels`. -/
theorem c10_unvalidated_programme :
    dictGet (mergeFold
        [(parseChannels idcc docA, parseProgrammes idcc docA)]).2 "c1"
      = some [progOut]
    ∧ dictGet (mergeFold
        [(parseChannels idcc docA, parseProgrammes idcc docA)]).1 "c1"
      = none
    ∧ dictGet (mergeFold
        [(parseChannels idcc docA, parseProgrammes idcc docA)]).1 "c0"
      = some (some "Zero")
    ∧ ((write_to_xml
          (mergeFold [(parseChannels idcc docA, parseProgrammes idcc docA)]).1
          (mergeFold [(parseChannels idcc docA, parseProgrammes idcc docA)]).2
          "20240101000000 +0800").children.any
        (fun c => c.tag == "programme" && c.get "channel" == some "c1"))
      = true
    ∧ ((write_to_xml
          (mergeFold [(parseChannels idcc docA, parseProgrammes idcc docA)]).1
          (mergeFold [(parseChannels idcc docA, parseProgrammes idcc docA)]).2
          "20240101000000 +0800").children.all
        (fun c => !(c.tag == "channel" && c.get "id" == some "c1")))
      = true :=
  ⟨rfl, rfl, rfl, rfl, rfl⟩
